import Mathlib

/-!
# Verification of the kinisi resampling core

A shallow embedding, over `ℚ`, of `kinisi/diffusion.py` (the MSD/MSCD
bootstrap loops and the `Diffusion` relationship) and `kinisi/matrix.py`
(the nearest-positive-definite repair).  Randomness (the bootstrap
resample means) and the statistical normality test are modelled as
oracle parameters: every theorem holds for all oracles.  The
`Distribution` class and the `StraightLine` relationship are not part of
the sources, so their interface is modelled from the specification.
-/

namespace Kinisi

open Matrix

/-- A displacement tensor with axes `[atom, observation, dimension]`
(one entry of the `displacements` list in `diffusion.py`). -/
abbrev Tensor3 := List (List (List ℚ))

/-- Number of atoms: axis 0 of the tensor (`displacements[i].shape[0]`). -/
def Tensor3.nAtoms (t : Tensor3) : ℕ := t.length

/-- Number of observations: axis 1 of the tensor (`displacements[i].shape[1]`). -/
def Tensor3.nObs (t : Tensor3) : ℕ := (t.headD []).length

/-- `np.sum(displacements[i] ** 2, axis=2)` flattened row-major:
one squared-displacement scalar per (atom, observation). -/
def dSquaredFlat (t : Tensor3) : List ℚ :=
  (t.map (fun atom => atom.map (fun obs => (obs.map (fun x => x * x)).sum))).flatten

/-- Number of spatial dimensions: axis 2 of the tensor. -/
def Tensor3.nDims (t : Tensor3) : ℕ := ((t.headD []).headD []).length

/-- `np.sum(np.sum(displacements[i][indices, :, :], axis=0) ** 2, axis=1)`
for an explicit index list: the collective (charge) displacement summed
over the selected atoms, squared, then summed over dimensions — one
scalar per observation. -/
def mscdObservations (t : Tensor3) (idx : List ℕ) : List ℚ :=
  (List.range t.nObs).map (fun j =>
    ((List.range t.nDims).map (fun d =>
      let s := (idx.map (fun a => ((t.getD a []).getD j []).getD d 0)).sum
      s * s)).sum)

/-- Python `int(q)`: truncation toward zero. -/
def pyInt (q : ℚ) : ℤ := if 0 ≤ q then ⌊q⌋ else -⌊-q⌋

/-- The independent-sample estimate of `msd_bootstrap`
(`diffusion.py` line 82): `int(max_obs / dt_int * n_atoms / samples_freq)
* bootstrap_multiplier` with `dt_int = max_obs - n_obs + 1`. -/
def nSamplesMSD (maxObs nObs nAtoms samplesFreq mult : ℕ) : ℤ :=
  pyInt ((maxObs : ℚ) / (((maxObs : ℤ) - (nObs : ℤ) + 1 : ℤ) : ℚ)
    * (nAtoms : ℚ) / (samplesFreq : ℚ)) * (mult : ℤ)

/-- The independent-sample estimate of `mscd_bootstrap`
(`diffusion.py` line 179): as in the MSD case but without the
particle-count factor. -/
def nSamplesMSCD (maxObs nObs samplesFreq mult : ℕ) : ℤ :=
  pyInt ((maxObs : ℚ) / (((maxObs : ℤ) - (nObs : ℤ) + 1 : ℤ) : ℚ)
    / (samplesFreq : ℚ)) * (mult : ℤ)

/-- Modelled from the spec: the `Distribution` normality flag
(`distribution.py` is absent from the sources).  Fewer than 3 samples
are never normal; otherwise a parametric test (Shapiro–Wilk or
D'Agostino, abstracted as the oracle `test`) decides. -/
def normalOf (test : List ℚ → Bool) (s : List ℚ) : Bool :=
  if s.length < 3 then false else test s

/-- A sorted copy of the samples (numpy sorts ascending). -/
def sortedSamples (l : List ℚ) : List ℚ := List.insertionSort (· ≤ ·) l

/-- Modelled from the spec: the distribution median (`distro.n`),
numpy-style (mean of the two central order statistics for even length). -/
def median (l : List ℚ) : ℚ :=
  let s := sortedSamples l
  if l.length % 2 = 1 then s.getD (l.length / 2) 0
  else (s.getD (l.length / 2 - 1) 0 + s.getD (l.length / 2) 0) / 2

/-- Modelled from the spec: `np.percentile` with linear interpolation
between order statistics at fractional position `q / 100 * (n - 1)`. -/
def percentile (l : List ℚ) (q : ℚ) : ℚ :=
  let s := sortedSamples l
  let pos : ℚ := q / 100 * ((l.length : ℚ) - 1)
  let f : ℤ := ⌊pos⌋
  if 0 ≤ f ∧ f + 1 < (l.length : ℤ) then
    s.getD f.toNat 0 + (pos - (f : ℚ)) * (s.getD (f.toNat + 1) 0 - s.getD f.toNat 0)
  else if 0 ≤ f then s.getD (l.length - 1) 0
  else s.getD 0 0

/-- Configuration of a bootstrap run, with the two oracles: `test` is
the statistical normality test on a sample list, and `R data n j` is
the mean of the `j`-th bootstrap resample (of size `n`, drawn with
replacement from `data`). -/
structure BootConfig where
  nResamples : ℕ
  samplesFreq : ℕ
  ciUpper : ℚ
  maxResamples : ℕ
  bootstrapMultiplier : ℕ
  test : List ℚ → Bool
  R : List ℚ → ℕ → ℕ → ℚ

/-- The adaptive resampling loop (`diffusion.py` lines 93–102): while
the distribution is not normal and its size is below
`max_resamples - n_resamples`, append a batch of 100 more bootstrap
resample means. -/
def growSamples (test : List ℚ → Bool) (draw : ℕ → ℚ) (cap : ℤ) (s : List ℚ) : List ℚ :=
  if _h : normalOf test s = false ∧ (s.length : ℤ) < cap then
    growSamples test draw cap (s ++ (List.range 100).map (fun j => draw (s.length + j)))
  else s
termination_by (cap - s.length).toNat
decreasing_by
  simp only [List.length_append, List.length_map, List.length_range]
  omega

/-- One record of the output arrays, together with the internal
observables (final distribution size, convergence warning) needed to
state the spec's properties. -/
structure IntervalResult where
  dt : ℚ
  mean : ℚ
  err : ℚ
  finalSize : ℕ
  warned : Bool
  deriving DecidableEq, Repr

/-- `max_obs = displacements[0].shape[1]` (`diffusion.py` lines 66/163). -/
def maxObsOf (disps : List Tensor3) : ℕ := (disps.getD 0 []).nObs

/-- The guard of the `continue` at `diffusion.py` line 84: interval `i`
survives iff its independent-sample estimate exceeds 1. -/
def survivesMSD (cfg : BootConfig) (disps : List Tensor3) (i : ℕ) : Bool :=
  decide (1 < nSamplesMSD (maxObsOf disps) (disps.getD i []).nObs
    (disps.getD i []).nAtoms cfg.samplesFreq cfg.bootstrapMultiplier)

/-- The final sample list of interval `i`'s distribution: the initial
batch of `n_resamples` bootstrap means grown by the adaptive loop. -/
def msdFinalSamples (cfg : BootConfig) (disps : List Tensor3) (i : ℕ) : List ℚ :=
  let t := disps.getD i []
  let nS := nSamplesMSD (maxObsOf disps) t.nObs t.nAtoms cfg.samplesFreq cfg.bootstrapMultiplier
  let draw := fun j => cfg.R (dSquaredFlat t) nS.toNat j
  growSamples cfg.test draw ((cfg.maxResamples : ℤ) - (cfg.nResamples : ℤ))
    ((List.range cfg.nResamples).map draw)

/-- The record emitted for a surviving interval (`diffusion.py` lines
103–111): `delta_t[i]`, the distribution median, the upper-percentile
minus the median, plus the internal size / warning observables. -/
def msdRecord (cfg : BootConfig) (deltaT : List ℚ) (disps : List Tensor3) (i : ℕ) :
    IntervalResult :=
  let final := msdFinalSamples cfg disps i
  { dt := deltaT.getD i 0
    mean := median final
    err := percentile final cfg.ciUpper - median final
    finalSize := final.length
    warned := decide ((cfg.maxResamples : ℤ) - (cfg.nResamples : ℤ) ≤ (final.length : ℤ)) }

/-- One iteration of the `msd_bootstrap` loop body: `none` when the
interval is dropped by the `continue`, otherwise its emitted record. -/
def msdInterval (cfg : BootConfig) (deltaT : List ℚ) (disps : List Tensor3) (i : ℕ) :
    Option IntervalResult :=
  if survivesMSD cfg disps i then some (msdRecord cfg deltaT disps i) else none

/-- All records emitted by `msd_bootstrap`, in loop order. -/
def msdResults (cfg : BootConfig) (deltaT : List ℚ) (disps : List Tensor3) :
    List IntervalResult :=
  (List.range disps.length).filterMap (msdInterval cfg deltaT disps)

/-- `msd_bootstrap` (`diffusion.py` lines 21–112): the returned triple
`(output_delta_t, mean_msd, err_msd)`. -/
def msd_bootstrap (cfg : BootConfig) (deltaT : List ℚ) (disps : List Tensor3) :
    List ℚ × List ℚ × List ℚ :=
  ((msdResults cfg deltaT disps).map IntervalResult.dt,
   (msdResults cfg deltaT disps).map IntervalResult.mean,
   (msdResults cfg deltaT disps).map IntervalResult.err)

/-- The `continue` guard of `mscd_bootstrap` (`diffusion.py` line 181);
the estimate has no particle factor and does not depend on `indices`. -/
def survivesMSCD (cfg : BootConfig) (disps : List Tensor3) (i : ℕ) : Bool :=
  decide (1 < nSamplesMSCD (maxObsOf disps) (disps.getD i []).nObs
    cfg.samplesFreq cfg.bootstrapMultiplier)

/-- The final sample list of interval `i`'s MSCD distribution. -/
def mscdFinalSamples (cfg : BootConfig) (disps : List Tensor3) (idx : List ℕ) (i : ℕ) :
    List ℚ :=
  let t := disps.getD i []
  let nS := nSamplesMSCD (maxObsOf disps) t.nObs cfg.samplesFreq cfg.bootstrapMultiplier
  let draw := fun j => cfg.R (mscdObservations t idx) nS.toNat j
  growSamples cfg.test draw ((cfg.maxResamples : ℤ) - (cfg.nResamples : ℤ))
    ((List.range cfg.nResamples).map draw)

/-- The record emitted for a surviving MSCD interval (`diffusion.py`
lines 200–210): as the MSD record, but with the mean and the
uncertainty divided by `len(indices)`. -/
def mscdRecord (cfg : BootConfig) (deltaT : List ℚ) (disps : List Tensor3) (idx : List ℕ)
    (i : ℕ) : IntervalResult :=
  let final := mscdFinalSamples cfg disps idx i
  { dt := deltaT.getD i 0
    mean := median final / (idx.length : ℚ)
    err := (percentile final cfg.ciUpper - median final) / (idx.length : ℚ)
    finalSize := final.length
    warned := decide ((cfg.maxResamples : ℤ) - (cfg.nResamples : ℤ) ≤ (final.length : ℤ)) }

/-- One iteration of the `mscd_bootstrap` loop body with explicit
`indices`. -/
def mscdInterval (cfg : BootConfig) (deltaT : List ℚ) (disps : List Tensor3) (idx : List ℕ)
    (i : ℕ) : Option IntervalResult :=
  if survivesMSCD cfg disps i then some (mscdRecord cfg deltaT disps idx i) else none

/-- All records emitted by `mscd_bootstrap` with explicit `indices`. -/
def mscdResults (cfg : BootConfig) (deltaT : List ℚ) (disps : List Tensor3) (idx : List ℕ) :
    List IntervalResult :=
  (List.range disps.length).filterMap (mscdInterval cfg deltaT disps idx)

/-- The triple returned by `mscd_bootstrap` with explicit `indices`. -/
def mscdTriple (cfg : BootConfig) (deltaT : List ℚ) (disps : List Tensor3) (idx : List ℕ) :
    List ℚ × List ℚ × List ℚ :=
  ((mscdResults cfg deltaT disps idx).map IntervalResult.dt,
   (mscdResults cfg deltaT disps idx).map IntervalResult.mean,
   (mscdResults cfg deltaT disps idx).map IntervalResult.err)

/-- `mscd_bootstrap` (`diffusion.py` lines 115–211).  With the default
`indices=None`, the first surviving interval evaluates
`len(indices) = len(None)` at line 205 and the call raises `TypeError`
(`np.sum(displacements[i][None, :, :], axis=0)` inserts a new axis, so
nothing fails earlier); if every interval is dropped the loop never
reaches line 205 and the three empty arrays are returned. -/
def mscd_bootstrap (cfg : BootConfig) (deltaT : List ℚ) (disps : List Tensor3)
    (indices : Option (List ℕ)) : Except String (List ℚ × List ℚ × List ℚ) :=
  match indices with
  | some idx => Except.ok (mscdTriple cfg deltaT disps idx)
  | none =>
    if (List.range disps.length).any (fun i => survivesMSCD cfg disps i) then
      Except.error "TypeError: object of type NoneType has no len()"
    else Except.ok ([], [], [])

/-! ## `kinisi/matrix.py` -/

/-- Square rational matrices, the shallow model of the numpy arrays
handled by `kinisi/matrix.py`. -/
abbrev Mat (n : ℕ) := Matrix (Fin n) (Fin n) ℚ

/-- The symmetric matrix determined by the lower triangle of `A`.
`np.linalg.cholesky` documents that only the lower-triangular and
diagonal entries of its argument are read. -/
def symmLower {n : ℕ} (A : Mat n) : Mat n :=
  fun i j => if (j : ℕ) ≤ (i : ℕ) then A i j else A j i

/-- The Schur complement of the leading 1×1 block. -/
def schurComp {n : ℕ} (A : Mat (n + 1)) : Mat n :=
  fun i j => A i.succ j.succ - A i.succ 0 * A 0 j.succ / A 0 0

/-- Success of the Cholesky factorization of a symmetric matrix,
decided in exact arithmetic by the LDLᵀ pivot recursion: the leading
pivot must be positive and the Schur complement must factor in turn. -/
def ldltTest : {n : ℕ} → Mat n → Bool
  | 0, _ => true
  | _ + 1, A => if A 0 0 ≤ 0 then false else ldltTest (schurComp A)

/-- `check_positive_definite` (`matrix.py` lines 45–56): true iff
`np.linalg.cholesky` succeeds, i.e. iff the symmetric matrix read off
the lower triangle is positive-definite; a factorization failure is
caught and reported as `False`. -/
def check_positive_definite {n : ℕ} (A : Mat n) : Bool := ldltTest (symmLower A)

/-- Sum of the absolute values of all entries; a bound on the quadratic
form used to show that a large diagonal shift makes a matrix pass the
Cholesky check. -/
def entrySum {n : ℕ} (A : Mat n) : ℚ := ∑ i, ∑ j, |A i j|

/-- The eigenvalue-shift loop of `find_nearest_positive_definite`
(`matrix.py` lines 36–40): while the Cholesky check fails, add
`eye * (-mineig * k² + spacing)` and increment `k`.  `mineig` models
`np.min(np.real(np.linalg.eigvals(·)))` and `eps` models
`np.spacing(np.linalg.norm(matrix))`; the accumulated diagonal shift is
tracked so the iterate is `B + shift • 1`.  The structural `fuel`
argument only bounds the recursion; `repairFuel` below always provides
enough of it (established by `claim_C6`), so the fuel-exhausted branch
is unreachable. -/
def repairLoop {n : ℕ} (mineig : Mat n → ℚ) (eps : ℚ) (B : Mat n) :
    ℕ → ℕ → ℚ → Mat n
  | 0, _, shift => B + shift • 1
  | fuel + 1, k, shift =>
    let A := B + shift • 1
    if check_positive_definite A then A
    else repairLoop mineig eps B fuel (k + 1) (shift + (-(mineig A) * (k : ℚ) ^ 2 + eps))

/-- Enough fuel for `repairLoop`: once the accumulated shift exceeds
`entrySum B + 1` the check passes, and each round adds at least `eps`. -/
def repairFuel {n : ℕ} (B : Mat n) (eps : ℚ) : ℕ :=
  (⌈(entrySum B + 1) / eps⌉).toNat + 1

/-- `find_nearest_positive_definite` (`matrix.py` lines 14–42).
`covNearest` models `statsmodels.correlation_tools.cov_nearest(·,
method='clipped')` (the clipped nearest-covariance projection), `mineig`
and `eps` as in `repairLoop`.  The boolean records whether the
repair warning was emitted. -/
def find_nearest_positive_definite {n : ℕ} (covNearest : Mat n → Mat n)
    (mineig : Mat n → ℚ) (eps : ℚ) (M : Mat n) : Bool × Mat n :=
  if check_positive_definite M then (false, M)
  else
    let A3 := covNearest M
    if check_positive_definite A3 then (true, A3)
    else (true, repairLoop mineig eps A3 (repairFuel A3 eps) 1 0)

/-! ## The `Diffusion` relationship (`diffusion.py` lines 214–259) -/

/-- A physical unit, reduced to its conversion factor into SI base
units (the only aspect of the `pint` registry the `Diffusion` class
uses). -/
structure UnitScale where
  scale : ℚ
  deriving DecidableEq

/-- `UREG.femtoseconds`. -/
def femtosecond : UnitScale := ⟨1 / 10 ^ 15⟩

/-- `UREG.angstrom ** 2`. -/
def angstromSq : UnitScale := ⟨1 / 10 ^ 20⟩

/-- `UREG.centimeter ** 2 / UREG.second`. -/
def cm2PerSecond : UnitScale := ⟨1 / 10 ^ 4⟩

/-- Quotient of two units (`ordinate_unit / abscissa_unit`). -/
def UnitScale.div (u v : UnitScale) : UnitScale := ⟨u.scale / v.scale⟩

/-- A magnitude tagged with a unit (a `pint` quantity). -/
structure Quantity where
  mag : ℚ
  unit : UnitScale
  deriving DecidableEq

/-- `pint`'s `.to(target)`: rescale the magnitude by the ratio of the
conversion factors and retag. -/
def Quantity.to (q : Quantity) (t : UnitScale) : Quantity :=
  ⟨q.mag * (q.unit.scale / t.scale), t⟩

/-- Modelled from the spec: the `StraightLine` relationship
(`kinisi/relationships.py` is absent from the sources).  It exposes the
fitted variables — `variables[0]` is the slope — as a point estimate
immediately and as posterior sample arrays after MCMC, plus the
ordinate and abscissa units. -/
structure StraightLineFit where
  slope : ℚ
  slopeSamples : List ℚ
  ordinateUnit : UnitScale
  abscissaUnit : UnitScale

/-- `Diffusion.__init__` (`diffusion.py` lines 235–238): the point
value `variables[0] / 6 * (ordinate_unit / abscissa_unit)` converted to
cm²/s. -/
def diffusionCoefficient (f : StraightLineFit) : Quantity :=
  (Quantity.mk (f.slope / 6) (f.ordinateUnit.div f.abscissaUnit)).to cm2PerSecond

/-- `Diffusion.sample` (`diffusion.py` lines 254–259): after MCMC the
coefficient is rebuilt as a distribution whose samples are
`variables[0].samples * unit_conversion.to(cm²/s).magnitude / 6`,
tagged with the cm²/s unit. -/
def sampledDiffusionCoefficient (f : StraightLineFit) : List ℚ × UnitScale :=
  let conv := (Quantity.mk 1 (f.ordinateUnit.div f.abscissaUnit)).to cm2PerSecond
  (f.slopeSamples.map (fun s => s * conv.mag / 6), cm2PerSecond)

/-! ## Concrete fixtures used by witnesses and counterexamples -/

/-- A configuration whose distribution never tests normal:
`n_resamples = 1`, `max_resamples = 100`. -/
def cfgNeverNormal : BootConfig :=
  ⟨1, 1, 97.5, 100, 1, fun _ => false, fun _ _ _ => 0⟩

/-- A configuration whose distribution always tests normal (once it has
the 3 samples the test needs): `n_resamples = 4`, `max_resamples = 6`. -/
def cfgAlwaysNormal : BootConfig :=
  ⟨4, 1, 97.5, 6, 1, fun _ => true, fun _ _ _ => 0⟩

/-- A small well-behaved configuration: `n_resamples = 3`,
`max_resamples = 1000`, normality immediate. -/
def cfgSmall : BootConfig :=
  ⟨3, 1, 97.5, 1000, 1, fun _ => true, fun _ _ _ => 0⟩

/-- One interval, two atoms, one observation, one dimension: the MSD
independent-sample estimate is 2, so the interval survives. -/
def dispTwoAtoms : List Tensor3 := [[[[0]], [[0]]]]

/-- One interval, one atom, one observation: every estimate is 1, so
the interval is dropped in both modes. -/
def dispOneAtom : List Tensor3 := [[[[0]]]]

/-- One interval, one atom, two observations: the MSCD estimate is 2,
so the interval survives in MSCD mode. -/
def dispTwoObs : List Tensor3 := [[[[0], [0]]]]

/-- One interval, one atom, three observations: the MSCD estimate is 3,
so the interval survives in MSCD mode. -/
def dispThreeObs : List Tensor3 := [[[[0], [0], [0]]]]

/-! ## Shared lemmas -/

theorem filterMap_ite_eq_filter_map {α β : Type} (f : α → Option β) (p : α → Bool)
    (g : α → β) (h : ∀ a, f a = if p a then some (g a) else none) (l : List α) :
    l.filterMap f = (l.filter p).map g := by
  induction l with
  | nil => rfl
  | cons a l ih =>
    cases hp : p a with
    | true => simp [List.filterMap_cons, List.filter_cons, h a, hp, ih]
    | false => simp [List.filterMap_cons, List.filter_cons, h a, hp, ih]

theorem growSamples_length_le (test : List ℚ → Bool) (draw : ℕ → ℚ) (cap : ℤ)
    (s : List ℚ) :
    ((growSamples test draw cap s).length : ℤ) ≤ max (s.length : ℤ) (cap + 99) := by
  rw [growSamples]
  split
  · rename_i h
    have ih := growSamples_length_le test draw cap
      (s ++ (List.range 100).map (fun j => draw (s.length + j)))
    simp only [List.length_append, List.length_map, List.length_range] at ih
    have h2 := h.2
    omega
  · exact le_max_left _ _
termination_by (cap - s.length).toNat
decreasing_by
  simp only [List.length_append, List.length_map, List.length_range]
  omega

theorem getD_lt_getD_of_pairwise (l : List ℚ) (h : List.Pairwise (· < ·) l) {i j : ℕ}
    (hij : i < j) (hj : j < l.length) : l.getD i 0 < l.getD j 0 := by
  rw [List.getD_eq_getElem l 0 (lt_trans hij hj), List.getD_eq_getElem l 0 hj]
  exact List.pairwise_iff_getElem.1 h i j (lt_trans hij hj) hj hij

theorem outputDt_pairwise (p : ℕ → Bool) (n : ℕ) (deltaT : List ℚ)
    (hsorted : List.Pairwise (· < ·) deltaT) (hlen : n ≤ deltaT.length) :
    List.Pairwise (· < ·)
      (((List.range n).filter p).map (fun i => deltaT.getD i 0)) := by
  apply List.pairwise_map.2
  apply List.Pairwise.imp_of_mem ?_
    ((List.pairwise_lt_range n).sublist ((List.range n).filter_sublist))
  intro a b ha hb hab
  have hb' : b < n := List.mem_range.1 (List.mem_of_mem_filter hb)
  exact getD_lt_getD_of_pairwise deltaT hsorted hab (lt_of_lt_of_le hb' hlen)

theorem outputDt_not_mem (p : ℕ → Bool) (n : ℕ) (deltaT : List ℚ)
    (hsorted : List.Pairwise (· < ·) deltaT) (hlen : n ≤ deltaT.length)
    {i : ℕ} (hi : i < n) (hpi : p i = false) :
    deltaT.getD i 0 ∉ ((List.range n).filter p).map (fun k => deltaT.getD k 0) := by
  intro hmem
  obtain ⟨j, hjmem, hj⟩ := List.mem_map.1 hmem
  have hj1 : j < n := List.mem_range.1 (List.mem_of_mem_filter hjmem)
  have hj2 : p j = true := List.of_mem_filter hjmem
  have hne : j ≠ i := by
    intro e
    rw [e, hpi] at hj2
    exact Bool.false_ne_true hj2
  rcases lt_or_gt_of_ne hne with hlt | hgt
  · exact absurd hj
      (ne_of_lt (getD_lt_getD_of_pairwise deltaT hsorted hlt (lt_of_lt_of_le hi hlen)))
  · exact absurd hj
      (ne_of_gt (getD_lt_getD_of_pairwise deltaT hsorted hgt (lt_of_lt_of_le hj1 hlen)))

theorem msdResults_eq (cfg : BootConfig) (deltaT : List ℚ) (disps : List Tensor3) :
    msdResults cfg deltaT disps
      = ((List.range disps.length).filter (survivesMSD cfg disps)).map
          (msdRecord cfg deltaT disps) :=
  filterMap_ite_eq_filter_map _ _ _ (fun _ => rfl) _

theorem mscdResults_eq (cfg : BootConfig) (deltaT : List ℚ) (disps : List Tensor3)
    (idx : List ℕ) :
    mscdResults cfg deltaT disps idx
      = ((List.range disps.length).filter (survivesMSCD cfg disps)).map
          (mscdRecord cfg deltaT disps idx) :=
  filterMap_ite_eq_filter_map _ _ _ (fun _ => rfl) _

theorem msd_outputDt (cfg : BootConfig) (deltaT : List ℚ) (disps : List Tensor3) :
    (msd_bootstrap cfg deltaT disps).1
      = ((List.range disps.length).filter (survivesMSD cfg disps)).map
          (fun i => deltaT.getD i 0) := by
  show (msdResults cfg deltaT disps).map IntervalResult.dt = _
  rw [msdResults_eq, List.map_map]
  rfl

theorem mscd_outputDt (cfg : BootConfig) (deltaT : List ℚ) (disps : List Tensor3)
    (idx : List ℕ) :
    (mscdTriple cfg deltaT disps idx).1
      = ((List.range disps.length).filter (survivesMSCD cfg disps)).map
          (fun i => deltaT.getD i 0) := by
  show (mscdResults cfg deltaT disps idx).map IntervalResult.dt = _
  rw [mscdResults_eq, List.map_map]
  rfl

/-! ## Claim C1 -/

/-- C1: on a strictly increasing `delta_t`, every interval whose
independent-sample count is ≤ 1 contributes no record to the output of
`msd_bootstrap` / `mscd_bootstrap` (its `delta_t` value is absent from
`output_delta_t`), the returned `output_delta_t` is sorted by strictly
increasing `delta_t`, and `output_delta_t` is exactly the `delta_t`
values of the surviving intervals, in order. -/
theorem claim_C1 (cfg : BootConfig) (deltaT : List ℚ) (disps : List Tensor3)
    (idx : List ℕ) (hsorted : List.Pairwise (· < ·) deltaT)
    (hlen : disps.length ≤ deltaT.length) :
    (∀ i, i < disps.length → survivesMSD cfg disps i = false →
        deltaT.getD i 0 ∉ (msd_bootstrap cfg deltaT disps).1)
      ∧ List.Pairwise (· < ·) (msd_bootstrap cfg deltaT disps).1
      ∧ (∀ i, i < disps.length → survivesMSCD cfg disps i = false →
          deltaT.getD i 0 ∉ (mscdTriple cfg deltaT disps idx).1)
      ∧ List.Pairwise (· < ·) (mscdTriple cfg deltaT disps idx).1
      ∧ mscd_bootstrap cfg deltaT disps (some idx)
          = Except.ok (mscdTriple cfg deltaT disps idx)
      ∧ (msd_bootstrap cfg deltaT disps).1
          = ((List.range disps.length).filter (survivesMSD cfg disps)).map
              (fun i => deltaT.getD i 0)
      ∧ (mscdTriple cfg deltaT disps idx).1
          = ((List.range disps.length).filter (survivesMSCD cfg disps)).map
              (fun i => deltaT.getD i 0) := by
  refine ⟨?_, ?_, ?_, ?_, rfl, msd_outputDt cfg deltaT disps,
    mscd_outputDt cfg deltaT disps idx⟩
  · intro i hi hpi
    rw [msd_outputDt]
    exact outputDt_not_mem _ _ deltaT hsorted hlen hi hpi
  · rw [msd_outputDt]
    exact outputDt_pairwise _ _ deltaT hsorted hlen
  · intro i hi hpi
    rw [mscd_outputDt]
    exact outputDt_not_mem _ _ deltaT hsorted hlen hi hpi
  · rw [mscd_outputDt]
    exact outputDt_pairwise _ _ deltaT hsorted hlen

/-- Witness for C1 at a concrete input: `delta_t = [1, 2]`, two
intervals of which the first survives in MSD mode. -/
theorem claim_C1_witness :
    List.Pairwise (· < ·) ([1, 2] : List ℚ)
      ∧ List.Pairwise (· < ·) (msd_bootstrap cfgSmall [1, 2] dispTwoAtoms).1 :=
  ⟨by decide,
   (claim_C1 cfgSmall [1, 2] dispTwoAtoms [0] (by decide) (by decide)).2.1⟩

/-! ## Claim C2 -/

/-- C2: for every surviving interval, `msd_bootstrap` emits the record
`(delta_t[i], median of the distribution, percentile(samples,
upper_ci_point) − median)`, and `mscd_bootstrap` emits the same record
with the mean and the uncertainty additionally divided by
`len(indices)`. -/
theorem claim_C2 (cfg : BootConfig) (deltaT : List ℚ) (disps : List Tensor3)
    (idx : List ℕ) (i : ℕ) :
    msdRecord cfg deltaT disps i
        = { dt := deltaT.getD i 0
            mean := median (msdFinalSamples cfg disps i)
            err := percentile (msdFinalSamples cfg disps i) cfg.ciUpper
              - median (msdFinalSamples cfg disps i)
            finalSize := (msdFinalSamples cfg disps i).length
            warned := decide ((cfg.maxResamples : ℤ) - (cfg.nResamples : ℤ)
              ≤ ((msdFinalSamples cfg disps i).length : ℤ)) }
      ∧ mscdRecord cfg deltaT disps idx i
        = { dt := deltaT.getD i 0
            mean := median (mscdFinalSamples cfg disps idx i) / (idx.length : ℚ)
            err := (percentile (mscdFinalSamples cfg disps idx i) cfg.ciUpper
              - median (mscdFinalSamples cfg disps idx i)) / (idx.length : ℚ)
            finalSize := (mscdFinalSamples cfg disps idx i).length
            warned := decide ((cfg.maxResamples : ℤ) - (cfg.nResamples : ℤ)
              ≤ ((mscdFinalSamples cfg disps idx i).length : ℤ)) }
      ∧ (msd_bootstrap cfg deltaT disps).2.1
        = ((List.range disps.length).filter (survivesMSD cfg disps)).map
            (fun k => median (msdFinalSamples cfg disps k))
      ∧ (msd_bootstrap cfg deltaT disps).2.2
        = ((List.range disps.length).filter (survivesMSD cfg disps)).map
            (fun k => percentile (msdFinalSamples cfg disps k) cfg.ciUpper
              - median (msdFinalSamples cfg disps k))
      ∧ (mscdTriple cfg deltaT disps idx).2.1
        = ((List.range disps.length).filter (survivesMSCD cfg disps)).map
            (fun k => median (mscdFinalSamples cfg disps idx k) / (idx.length : ℚ))
      ∧ (mscdTriple cfg deltaT disps idx).2.2
        = ((List.range disps.length).filter (survivesMSCD cfg disps)).map
            (fun k => (percentile (mscdFinalSamples cfg disps idx k) cfg.ciUpper
              - median (mscdFinalSamples cfg disps idx k)) / (idx.length : ℚ)) := by
  refine ⟨rfl, rfl, ?_, ?_, ?_, ?_⟩
  · show (msdResults cfg deltaT disps).map IntervalResult.mean = _
    rw [msdResults_eq, List.map_map]; rfl
  · show (msdResults cfg deltaT disps).map IntervalResult.err = _
    rw [msdResults_eq, List.map_map]; rfl
  · show (mscdResults cfg deltaT disps idx).map IntervalResult.mean = _
    rw [mscdResults_eq, List.map_map]; rfl
  · show (mscdResults cfg deltaT disps idx).map IntervalResult.err = _
    rw [mscdResults_eq, List.map_map]; rfl

/-! ## Claim C3 -/

/-- C3 (amended): the resampling loop always terminates (the embedding
is a total function), and the final distribution size is at most
`max n_resamples (max_resamples − n_resamples + 99)`.  This exceeds
`max_resamples` when `n_resamples < 99` or `n_resamples >
max_resamples` — see the counterexample — so `max_resamples` is a hard
cap only when `99 ≤ n_resamples ≤ max_resamples`. -/
theorem claim_C3 (cfg : BootConfig) (deltaT : List ℚ) (disps : List Tensor3)
    (idx : List ℕ) (i : ℕ) :
    (((msdRecord cfg deltaT disps i).finalSize : ℤ)
        ≤ max (cfg.nResamples : ℤ) ((cfg.maxResamples : ℤ) - (cfg.nResamples : ℤ) + 99))
      ∧ (((mscdRecord cfg deltaT disps idx i).finalSize : ℤ)
        ≤ max (cfg.nResamples : ℤ) ((cfg.maxResamples : ℤ) - (cfg.nResamples : ℤ) + 99)) := by
  constructor
  · have h := growSamples_length_le cfg.test
      (fun j => cfg.R (dSquaredFlat (disps.getD i []))
        (nSamplesMSD (maxObsOf disps) (disps.getD i []).nObs (disps.getD i []).nAtoms
          cfg.samplesFreq cfg.bootstrapMultiplier).toNat j)
      ((cfg.maxResamples : ℤ) - (cfg.nResamples : ℤ))
      ((List.range cfg.nResamples).map
        (fun j => cfg.R (dSquaredFlat (disps.getD i []))
          (nSamplesMSD (maxObsOf disps) (disps.getD i []).nObs (disps.getD i []).nAtoms
            cfg.samplesFreq cfg.bootstrapMultiplier).toNat j))
    simp only [List.length_map, List.length_range] at h
    exact h
  · have h := growSamples_length_le cfg.test
      (fun j => cfg.R (mscdObservations (disps.getD i []) idx)
        (nSamplesMSCD (maxObsOf disps) (disps.getD i []).nObs
          cfg.samplesFreq cfg.bootstrapMultiplier).toNat j)
      ((cfg.maxResamples : ℤ) - (cfg.nResamples : ℤ))
      ((List.range cfg.nResamples).map
        (fun j => cfg.R (mscdObservations (disps.getD i []) idx)
          (nSamplesMSCD (maxObsOf disps) (disps.getD i []).nObs
            cfg.samplesFreq cfg.bootstrapMultiplier).toNat j))
    simp only [List.length_map, List.length_range] at h
    exact h

/-- Counterexample to C3 as stated: with `n_resamples = 1` and
`max_resamples = 100` (both positive) and a distribution that never
tests normal, the surviving interval's final distribution holds 101
samples, exceeding `max_resamples = 100`. -/
theorem claim_C3_counterexample :
    cfgNeverNormal.maxResamples = 100
      ∧ (msdResults cfgNeverNormal [1] dispTwoAtoms).map IntervalResult.finalSize
          = [101] := by
  refine ⟨rfl, ?_⟩
  have hs : survivesMSD cfgNeverNormal dispTwoAtoms 0 = true := by
    norm_num [survivesMSD, nSamplesMSD, pyInt, maxObsOf, Tensor3.nObs, Tensor3.nAtoms,
      dispTwoAtoms, cfgNeverNormal]
  have hfin : (msdFinalSamples cfgNeverNormal dispTwoAtoms 0).length = 101 := by
    unfold msdFinalSamples
    rw [growSamples, dif_pos (by decide), growSamples, dif_neg (by decide)]
    decide
  have hres : msdResults cfgNeverNormal [1] dispTwoAtoms
      = [msdRecord cfgNeverNormal [1] dispTwoAtoms 0] := by
    rw [msdResults_eq, show dispTwoAtoms.length = 1 from rfl]
    simp [List.range_succ, hs]
  rw [hres]
  simp only [List.map_cons, List.map_nil]
  rw [show (msdRecord cfgNeverNormal [1] dispTwoAtoms 0).finalSize
    = (msdFinalSamples cfgNeverNormal dispTwoAtoms 0).length from rfl, hfin]

/-! ## Claim C4 -/

/-- C4 (amended): the convergence warning for an interval fires iff the
final distribution size reaches `max_resamples − n_resamples`,
regardless of whether normality was achieved (see the counterexample:
an already-normal distribution still warns when the initial batch
reaches the size threshold).  When it fires the interval's record is
still emitted, and no exception is raised (`msd_bootstrap` is total and
`mscd_bootstrap` with explicit indices returns `ok`). -/
theorem claim_C4 (cfg : BootConfig) (deltaT : List ℚ) (disps : List Tensor3)
    (idx : List ℕ) (i : ℕ) (hi : i < disps.length) :
    ((msdRecord cfg deltaT disps i).warned = true
        ↔ (cfg.maxResamples : ℤ) - (cfg.nResamples : ℤ)
            ≤ ((msdRecord cfg deltaT disps i).finalSize : ℤ))
      ∧ (survivesMSD cfg disps i = true →
          msdRecord cfg deltaT disps i ∈ msdResults cfg deltaT disps)
      ∧ ((mscdRecord cfg deltaT disps idx i).warned = true
        ↔ (cfg.maxResamples : ℤ) - (cfg.nResamples : ℤ)
            ≤ ((mscdRecord cfg deltaT disps idx i).finalSize : ℤ))
      ∧ (survivesMSCD cfg disps i = true →
          mscdRecord cfg deltaT disps idx i ∈ mscdResults cfg deltaT disps idx)
      ∧ mscd_bootstrap cfg deltaT disps (some idx)
          = Except.ok (mscdTriple cfg deltaT disps idx) := by
  refine ⟨decide_eq_true_iff, ?_, decide_eq_true_iff, ?_, rfl⟩
  · intro hs
    rw [msdResults_eq]
    exact List.mem_map_of_mem _ (List.mem_filter.2 ⟨List.mem_range.2 hi, hs⟩)
  · intro hs
    rw [mscdResults_eq]
    exact List.mem_map_of_mem _ (List.mem_filter.2 ⟨List.mem_range.2 hi, hs⟩)

/-- Witness for C4 at a concrete input. -/
theorem claim_C4_witness :
    0 < dispTwoAtoms.length
      ∧ ((msdRecord cfgSmall [1] dispTwoAtoms 0).warned = true
          ↔ (cfgSmall.maxResamples : ℤ) - (cfgSmall.nResamples : ℤ)
              ≤ ((msdRecord cfgSmall [1] dispTwoAtoms 0).finalSize : ℤ)) :=
  ⟨by decide, (claim_C4 cfgSmall [1] dispTwoAtoms [0] 0 (by decide)).1⟩

/-- Counterexample to C4 as stated: with `n_resamples = 4` and
`max_resamples = 6`, the initial batch already has size `4 ≥
max_resamples − n_resamples = 2`, so the warning fires even though the
distribution tests normal — the warning is not equivalent to "the cap
was reached before normality was achieved". -/
theorem claim_C4_counterexample :
    normalOf cfgAlwaysNormal.test (msdFinalSamples cfgAlwaysNormal dispTwoAtoms 0) = true
      ∧ (msdResults cfgAlwaysNormal [1] dispTwoAtoms).map IntervalResult.warned
          = [true] := by
  have hs : survivesMSD cfgAlwaysNormal dispTwoAtoms 0 = true := by
    norm_num [survivesMSD, nSamplesMSD, pyInt, maxObsOf, Tensor3.nObs, Tensor3.nAtoms,
      dispTwoAtoms, cfgAlwaysNormal]
  have hfin : msdFinalSamples cfgAlwaysNormal dispTwoAtoms 0
      = (List.range 4).map (fun _ => (0 : ℚ)) := by
    unfold msdFinalSamples
    rw [growSamples, dif_neg (by decide)]
    rfl
  constructor
  · rw [hfin]
    decide
  · have hres : msdResults cfgAlwaysNormal [1] dispTwoAtoms
        = [msdRecord cfgAlwaysNormal [1] dispTwoAtoms 0] := by
      rw [msdResults_eq, show dispTwoAtoms.length = 1 from rfl]
      simp [List.range_succ, hs]
    have hw : (msdRecord cfgAlwaysNormal [1] dispTwoAtoms 0).warned = true := by
      show decide ((cfgAlwaysNormal.maxResamples : ℤ) - (cfgAlwaysNormal.nResamples : ℤ)
        ≤ ((msdFinalSamples cfgAlwaysNormal dispTwoAtoms 0).length : ℤ)) = true
      rw [hfin]
      decide
    rw [hres, List.map_cons, List.map_nil, hw]

/-! ## Claim C5 -/

/-- C5: the independent-sample count used for resampling is
`int(max_obs / (max_obs − n_obs_i + 1) × particle_factor /
samples_freq) * bootstrap_multiplier`, where the particle factor is the
atom count in MSD mode and is omitted in MSCD mode. -/
theorem claim_C5 (maxObs nObs nAtoms samplesFreq mult : ℕ) :
    nSamplesMSD maxObs nObs nAtoms samplesFreq mult
        = pyInt ((maxObs : ℚ) / ((maxObs : ℚ) - (nObs : ℚ) + 1)
            * (nAtoms : ℚ) / (samplesFreq : ℚ)) * (mult : ℤ)
      ∧ nSamplesMSCD maxObs nObs samplesFreq mult
        = pyInt ((maxObs : ℚ) / ((maxObs : ℚ) - (nObs : ℚ) + 1)
            / (samplesFreq : ℚ)) * (mult : ℤ) := by
  unfold nSamplesMSD nSamplesMSCD
  push_cast
  exact ⟨rfl, rfl⟩

/-! ## Claim C8 -/

/-- C8: the code contradicts its own docstring ("Default to all
particles"): with the default `indices=None`, the first surviving
interval evaluates `len(None)` at `diffusion.py` line 205 and the call
raises `TypeError` instead of selecting all particles.  Concrete
failing input: one interval of one atom and two observations, whose
independent-sample estimate is 2 > 1. -/
theorem claim_C8_bug :
    mscd_bootstrap cfgSmall [1] dispTwoObs none
      = Except.error "TypeError: object of type NoneType has no len()" := by
  have hs : survivesMSCD cfgSmall dispTwoObs 0 = true := by
    norm_num [survivesMSCD, nSamplesMSCD, pyInt, maxObsOf, Tensor3.nObs,
      dispTwoObs, cfgSmall]
  show (if (List.range dispTwoObs.length).any (fun i => survivesMSCD cfgSmall dispTwoObs i)
    then Except.error "TypeError: object of type NoneType has no len()"
    else Except.ok ([], [], [])) = _
  rw [if_pos]
  rw [show List.range dispTwoObs.length = [0] from rfl]
  simp [hs]

/-! ## Claim C10 -/

/-- C10 (amended): `msd_bootstrap` always returns three equal-length
arrays (one entry per surviving interval) and returns three empty
arrays when every interval is dropped; `mscd_bootstrap` does the same
when `indices` is provided, and with the default `indices=None` it
returns three empty arrays when every interval is dropped but raises
`TypeError` as soon as any interval survives (see the counterexample
and C8). -/
theorem claim_C10 (cfg : BootConfig) (deltaT : List ℚ) (disps : List Tensor3)
    (idx : List ℕ) :
    ((msd_bootstrap cfg deltaT disps).1.length
        = (msd_bootstrap cfg deltaT disps).2.1.length
      ∧ (msd_bootstrap cfg deltaT disps).2.1.length
        = (msd_bootstrap cfg deltaT disps).2.2.length)
      ∧ ((mscdTriple cfg deltaT disps idx).1.length
          = (mscdTriple cfg deltaT disps idx).2.1.length
        ∧ (mscdTriple cfg deltaT disps idx).2.1.length
          = (mscdTriple cfg deltaT disps idx).2.2.length)
      ∧ mscd_bootstrap cfg deltaT disps (some idx)
          = Except.ok (mscdTriple cfg deltaT disps idx)
      ∧ ((∀ i, i < disps.length → survivesMSD cfg disps i = false) →
          msd_bootstrap cfg deltaT disps = ([], [], []))
      ∧ ((∀ i, i < disps.length → survivesMSCD cfg disps i = false) →
          mscdTriple cfg deltaT disps idx = ([], [], [])
            ∧ mscd_bootstrap cfg deltaT disps none = Except.ok ([], [], [])) := by
  refine ⟨⟨by simp [msd_bootstrap], by simp [msd_bootstrap]⟩,
    ⟨by simp [mscdTriple], by simp [mscdTriple]⟩, rfl, ?_, ?_⟩
  · intro h
    have hres : msdResults cfg deltaT disps = [] := by
      rw [msdResults_eq]
      have hf : (List.range disps.length).filter (survivesMSD cfg disps) = [] := by
        rw [List.filter_eq_nil_iff]
        intro a ha
        simp [h a (List.mem_range.1 ha)]
      rw [hf, List.map_nil]
    simp [msd_bootstrap, hres]
  · intro h
    have hf : (List.range disps.length).filter (survivesMSCD cfg disps) = [] := by
      rw [List.filter_eq_nil_iff]
      intro a ha
      simp [h a (List.mem_range.1 ha)]
    have hres : mscdResults cfg deltaT disps idx = [] := by
      rw [mscdResults_eq, hf, List.map_nil]
    have hany : ((List.range disps.length).any
        (fun i => survivesMSCD cfg disps i)) = false := by
      rw [List.any_eq_false]
      intro x hx
      simp [h x (List.mem_range.1 hx)]
    constructor
    · simp [mscdTriple, hres]
    · show (if (List.range disps.length).any (fun i => survivesMSCD cfg disps i)
        then Except.error "TypeError: object of type NoneType has no len()"
        else Except.ok ([], [], [])) = _
      rw [hany]
      rfl

/-- Witness for C10 at a concrete all-dropped input: one interval of
one atom and one observation, whose estimate is 1 in both modes. -/
theorem claim_C10_witness :
    (∀ i, i < dispOneAtom.length → survivesMSD cfgSmall dispOneAtom i = false)
      ∧ msd_bootstrap cfgSmall [1] dispOneAtom = ([], [], []) := by
  have h : ∀ i, i < dispOneAtom.length → survivesMSD cfgSmall dispOneAtom i = false := by
    intro i hi
    have hi0 : i = 0 := by
      have : dispOneAtom.length = 1 := rfl
      omega
    subst hi0
    simp only [survivesMSD, decide_eq_false_iff_not]
    norm_num [nSamplesMSD, pyInt, maxObsOf, Tensor3.nObs, Tensor3.nAtoms,
      dispOneAtom, cfgSmall]
  exact ⟨h, (claim_C10 cfgSmall [1] dispOneAtom []).2.2.2.1 h⟩

/-- Counterexample to C10 as stated: with the default `indices=None`
and a surviving interval (one atom, three observations, estimate
3 > 1), `mscd_bootstrap` raises `TypeError` instead of returning three
arrays. -/
theorem claim_C10_counterexample :
    mscd_bootstrap cfgNeverNormal [1] dispThreeObs none
      = Except.error "TypeError: object of type NoneType has no len()" := by
  have hs : survivesMSCD cfgNeverNormal dispThreeObs 0 = true := by
    norm_num [survivesMSCD, nSamplesMSCD, pyInt, maxObsOf, Tensor3.nObs,
      dispThreeObs, cfgNeverNormal]
  show (if (List.range dispThreeObs.length).any
      (fun i => survivesMSCD cfgNeverNormal dispThreeObs i)
    then Except.error "TypeError: object of type NoneType has no len()"
    else Except.ok ([], [], [])) = _
  rw [if_pos]
  rw [show List.range dispThreeObs.length = [0] from rfl]
  simp [hs]

/-! ## Claim C9 -/

/-- C9: after construction, `diffusion_coefficient` equals the fitted
slope divided by 6 converted to cm²/s, available as a point value; and
after `sample()` it is a distribution in which every posterior slope
sample has been divided by 6 and unit-converted the same way. -/
theorem claim_C9 (f : StraightLineFit) :
    (diffusionCoefficient f).mag
        = f.slope / 6
          * ((f.ordinateUnit.scale / f.abscissaUnit.scale) / cm2PerSecond.scale)
      ∧ (diffusionCoefficient f).unit = cm2PerSecond
      ∧ (sampledDiffusionCoefficient f).1
        = f.slopeSamples.map (fun s =>
            s / 6 * ((f.ordinateUnit.scale / f.abscissaUnit.scale) / cm2PerSecond.scale))
      ∧ (sampledDiffusionCoefficient f).2 = cm2PerSecond := by
  refine ⟨rfl, rfl, ?_, rfl⟩
  show f.slopeSamples.map
      (fun s => s * ((Quantity.mk 1 (f.ordinateUnit.div f.abscissaUnit)).to
        cm2PerSecond).mag / 6) = _
  refine congrArg (fun g => List.map g f.slopeSamples) (funext fun s => ?_)
  show s * (1 * ((f.ordinateUnit.scale / f.abscissaUnit.scale) / cm2PerSecond.scale)) / 6
      = s / 6 * ((f.ordinateUnit.scale / f.abscissaUnit.scale) / cm2PerSecond.scale)
  ring

/-! ## Positive-definite matrix theory and claims C6, C7 -/

theorem qf_cons_raw {n : ℕ} (A : Mat (n + 1)) (hA : A.IsSymm) (t : ℚ) (y : Fin n → ℚ) :
    dotProduct (Fin.cons t y) (A.mulVec (Fin.cons t y))
      = A 0 0 * t ^ 2 + 2 * t * (∑ j, A 0 j.succ * y j)
        + ∑ i, y i * ∑ j, A i.succ j.succ * y j := by
  have hsym : ∀ i : Fin n, A i.succ 0 = A 0 i.succ := fun i => hA.apply 0 i.succ
  simp only [dotProduct, Matrix.mulVec, Fin.sum_univ_succ, Fin.cons_zero, Fin.cons_succ]
  have e1 : ∀ i : Fin n,
      y i * (A i.succ 0 * t + ∑ j, A i.succ j.succ * y j)
        = t * (A 0 i.succ * y i) + y i * ∑ j, A i.succ j.succ * y j := by
    intro i
    rw [hsym i]
    ring
  rw [Finset.sum_congr rfl (fun i _ => e1 i), Finset.sum_add_distrib, ← Finset.mul_sum]
  have e2 : ∑ i : Fin n, A 0 i.succ * y i = ∑ i : Fin n, y i * A 0 i.succ :=
    Finset.sum_congr rfl (fun i _ => mul_comm _ _)
  rw [e2]
  ring

theorem qf_schur {n : ℕ} (A : Mat (n + 1)) (hA : A.IsSymm) (y : Fin n → ℚ) :
    dotProduct y ((schurComp A).mulVec y)
      = (∑ i, y i * ∑ j, A i.succ j.succ * y j)
        - (∑ j, A 0 j.succ * y j) ^ 2 / A 0 0 := by
  have hsym : ∀ i : Fin n, A i.succ 0 = A 0 i.succ := fun i => hA.apply 0 i.succ
  simp only [dotProduct, Matrix.mulVec, schurComp]
  have e1 : ∀ i : Fin n,
      y i * (∑ j, (A i.succ j.succ - A i.succ 0 * A 0 j.succ / A 0 0) * y j)
        = y i * (∑ j, A i.succ j.succ * y j)
          - (A 0 i.succ * y i) * ((∑ j, A 0 j.succ * y j) / A 0 0) := by
    intro i
    have e2 : ∀ j : Fin n,
        (A i.succ j.succ - A i.succ 0 * A 0 j.succ / A 0 0) * y j
          = A i.succ j.succ * y j - A i.succ 0 * (A 0 j.succ * y j) / A 0 0 := by
      intro j
      ring
    rw [Finset.sum_congr rfl (fun j _ => e2 j), Finset.sum_sub_distrib]
    rw [show ∑ j : Fin n, A i.succ 0 * (A 0 j.succ * y j) / A 0 0
      = A i.succ 0 * (∑ j : Fin n, A 0 j.succ * y j) / A 0 0 by
        rw [Finset.mul_sum, Finset.sum_div]]
    rw [hsym i]
    ring
  rw [Finset.sum_congr rfl (fun i _ => e1 i), Finset.sum_sub_distrib, ← Finset.sum_mul]
  rw [show ∑ i : Fin n, A 0 i.succ * y i = ∑ j : Fin n, A 0 j.succ * y j from rfl]
  ring

theorem isHermitian_iff_isSymm {n : ℕ} (A : Mat n) : A.IsHermitian ↔ A.IsSymm := by
  rw [Matrix.IsHermitian, Matrix.IsSymm, Matrix.conjTranspose_eq_transpose_of_trivial]

theorem schurComp_isSymm {n : ℕ} (A : Mat (n + 1)) (hA : A.IsSymm) :
    (schurComp A).IsSymm := by
  have hsym : ∀ i j : Fin (n + 1), A j i = A i j := fun i j => hA.apply i j
  ext i j
  simp only [Matrix.transpose_apply, schurComp]
  rw [hsym j.succ i.succ, hsym j.succ 0, hsym 0 i.succ]
  ring

theorem cons_ne_zero_of_tail {n : ℕ} (t : ℚ) (y : Fin n → ℚ) (hy : y ≠ 0) :
    (Fin.cons t y : Fin (n + 1) → ℚ) ≠ 0 := by
  intro h
  apply hy
  funext i
  have := congrFun h i.succ
  simpa using this

theorem posDef_dotProduct {n : ℕ} {A : Mat n} (hA : A.PosDef) {x : Fin n → ℚ}
    (hx : x ≠ 0) : 0 < dotProduct x (A.mulVec x) := by
  have := hA.2 x hx
  simpa [star_trivial] using this

theorem posDef_iff_pivot {n : ℕ} (A : Mat (n + 1)) (hA : A.IsSymm) :
    A.PosDef ↔ 0 < A 0 0 ∧ (schurComp A).PosDef := by
  constructor
  · intro hPD
    have ha : 0 < A 0 0 := by
      have hx : (Fin.cons 1 (0 : Fin n → ℚ) : Fin (n + 1) → ℚ) ≠ 0 := by
        intro h
        have := congrFun h 0
        simp at this
      have h1 := posDef_dotProduct hPD hx
      rw [qf_cons_raw A hA 1 0] at h1
      simpa using h1
    refine ⟨ha, (isHermitian_iff_isSymm _).2 (schurComp_isSymm A hA), ?_⟩
    intro y hy
    have hx := cons_ne_zero_of_tail (-(∑ j, A 0 j.succ * y j) / A 0 0) y hy
    have h1 := posDef_dotProduct hPD hx
    rw [qf_cons_raw A hA _ y] at h1
    rw [show dotProduct (star y) ((schurComp A).mulVec y) = dotProduct y ((schurComp A).mulVec y)
      by simp [star_trivial]]
    rw [qf_schur A hA y]
    have ha' : A 0 0 ≠ 0 := ne_of_gt ha
    have expand : A 0 0 * (-(∑ j, A 0 j.succ * y j) / A 0 0) ^ 2
        + 2 * (-(∑ j, A 0 j.succ * y j) / A 0 0) * (∑ j, A 0 j.succ * y j)
        = -((∑ j, A 0 j.succ * y j) ^ 2 / A 0 0) := by
      field_simp
      ring
    calc (0 : ℚ) < A 0 0 * (-(∑ j, A 0 j.succ * y j) / A 0 0) ^ 2
          + 2 * (-(∑ j, A 0 j.succ * y j) / A 0 0) * (∑ j, A 0 j.succ * y j)
          + ∑ i, y i * ∑ j, A i.succ j.succ * y j := h1
      _ = (∑ i, y i * ∑ j, A i.succ j.succ * y j)
          - (∑ j, A 0 j.succ * y j) ^ 2 / A 0 0 := by rw [expand]; ring
  · rintro ⟨ha, hS⟩
    refine ⟨(isHermitian_iff_isSymm _).2 hA, ?_⟩
    intro x hx
    rw [show dotProduct (star x) (A.mulVec x) = dotProduct x (A.mulVec x)
      by simp [star_trivial]]
    rw [← Fin.cons_self_tail x, qf_cons_raw A hA (x 0) (Fin.tail x)]
    by_cases hy : Fin.tail x = 0
    · have ht : x 0 ≠ 0 := by
        intro h0
        apply hx
        rw [← Fin.cons_self_tail x, h0, hy]
        funext i
        exact Fin.cases rfl (fun j => rfl) i
      have hS0 : ∀ j : Fin n, Fin.tail x j = 0 := fun j => congrFun hy j
      have e0 : (∑ j, A 0 j.succ * Fin.tail x j) = 0 := by
        apply Finset.sum_eq_zero
        intro j _
        rw [hS0 j, mul_zero]
      have e1 : (∑ i, Fin.tail x i * ∑ j, A i.succ j.succ * Fin.tail x j) = 0 := by
        apply Finset.sum_eq_zero
        intro i _
        rw [hS0 i, zero_mul]
      rw [e0, e1]
      have : 0 < A 0 0 * x 0 ^ 2 := by positivity
      linarith
    · have hq := posDef_dotProduct hS hy
      rw [qf_schur A hA (Fin.tail x)] at hq
      have ha' : A 0 0 ≠ 0 := ne_of_gt ha
      have key : A 0 0 * (x 0 + (∑ j, A 0 j.succ * Fin.tail x j) / A 0 0) ^ 2
          + ((∑ i, Fin.tail x i * ∑ j, A i.succ j.succ * Fin.tail x j)
            - (∑ j, A 0 j.succ * Fin.tail x j) ^ 2 / A 0 0)
          = A 0 0 * x 0 ^ 2 + 2 * x 0 * (∑ j, A 0 j.succ * Fin.tail x j)
            + ∑ i, Fin.tail x i * ∑ j, A i.succ j.succ * Fin.tail x j := by
        field_simp
        ring
      have sq0 : 0 ≤ A 0 0 * (x 0 + (∑ j, A 0 j.succ * Fin.tail x j) / A 0 0) ^ 2 := by
        positivity
      linarith [key, hq, sq0]

theorem ldltTest_iff_posDef : ∀ {n : ℕ} (A : Mat n), A.IsSymm →
    (ldltTest A = true ↔ A.PosDef) := by
  intro n
  induction n with
  | zero =>
    intro A hA
    simp only [ldltTest]
    constructor
    · intro _
      refine ⟨(isHermitian_iff_isSymm _).2 hA, ?_⟩
      intro x hx
      exact absurd (Subsingleton.elim x 0) hx
    · intro _
      trivial
  | succ n ih =>
    intro A hA
    rw [posDef_iff_pivot A hA]
    show (if A 0 0 ≤ 0 then false else ldltTest (schurComp A)) = true ↔ _
    by_cases ha : A 0 0 ≤ 0
    · rw [if_pos ha]
      constructor
      · intro h
        exact absurd h (by decide)
      · intro h
        exact absurd h.1 (not_lt.2 ha)
    · rw [if_neg ha, ih (schurComp A) (schurComp_isSymm A hA)]
      have ha' : 0 < A 0 0 := lt_of_not_le ha
      simp [ha']

theorem symmLower_isSymm {n : ℕ} (A : Mat n) : (symmLower A).IsSymm := by
  ext i j
  simp only [Matrix.transpose_apply, symmLower]
  rcases le_or_lt (j : ℕ) (i : ℕ) with h | h
  · rcases le_or_lt (i : ℕ) (j : ℕ) with h2 | h2
    · have : i = j := Fin.ext (le_antisymm h2 h)
      subst this
      simp
    · rw [if_pos h, if_neg (not_le.2 h2)]
  · rw [if_neg (not_le.2 h), if_pos (le_of_lt h)]

theorem symmLower_eq_of_isSymm {n : ℕ} (A : Mat n) (hA : A.IsSymm) : symmLower A = A := by
  ext i j
  simp only [symmLower]
  rcases le_or_lt (j : ℕ) (i : ℕ) with h | h
  · rw [if_pos h]
  · rw [if_neg (not_le.2 h)]
    exact hA.apply i j

theorem abs_mul_abs_le_sumsq {n : ℕ} (x : Fin n → ℚ) (i j : Fin n) :
    |x i| * |x j| ≤ ∑ k, x k * x k := by
  have h1 : x i ^ 2 ≤ ∑ k, x k * x k := by
    rw [sq]
    exact Finset.single_le_sum (fun k _ => mul_self_nonneg (x k)) (Finset.mem_univ i)
  have h2 : x j ^ 2 ≤ ∑ k, x k * x k := by
    rw [sq]
    exact Finset.single_le_sum (fun k _ => mul_self_nonneg (x k)) (Finset.mem_univ j)
  nlinarith [two_mul_le_add_sq |x i| |x j|, sq_abs (x i), sq_abs (x j),
    abs_nonneg (x i), abs_nonneg (x j)]

theorem abs_qf_le_entrySum_mul {n : ℕ} (A : Mat n) (x : Fin n → ℚ) :
    |dotProduct x (A.mulVec x)| ≤ entrySum A * ∑ k, x k * x k := by
  simp only [dotProduct, Matrix.mulVec, entrySum]
  have e1 : ∀ i : Fin n, x i * ∑ j, A i j * x j = ∑ j, x i * (A i j * x j) := by
    intro i
    rw [Finset.mul_sum]
  rw [Finset.sum_congr rfl (fun i _ => e1 i)]
  calc |∑ i, ∑ j, x i * (A i j * x j)|
      ≤ ∑ i, |∑ j, x i * (A i j * x j)| :=
        Finset.abs_sum_le_sum_abs _ _
    _ ≤ ∑ i, ∑ j, |x i * (A i j * x j)| :=
        Finset.sum_le_sum (fun i _ => Finset.abs_sum_le_sum_abs _ _)
    _ = ∑ i, ∑ j, |A i j| * (|x i| * |x j|) := by
        refine Finset.sum_congr rfl (fun i _ => Finset.sum_congr rfl (fun j _ => ?_))
        rw [abs_mul, abs_mul]
        ring
    _ ≤ ∑ i, ∑ j, |A i j| * ∑ k, x k * x k := by
        refine Finset.sum_le_sum (fun i _ => Finset.sum_le_sum (fun j _ => ?_))
        exact mul_le_mul_of_nonneg_left (abs_mul_abs_le_sumsq x i j) (abs_nonneg _)
    _ = (∑ i, ∑ j, |A i j|) * ∑ k, x k * x k := by
        rw [Finset.sum_mul]
        exact Finset.sum_congr rfl (fun i _ => by rw [Finset.sum_mul])

theorem posDef_add_entrySum_smul {n : ℕ} (A : Mat n) (hA : A.IsSymm) (c : ℚ)
    (hc : entrySum A < c) : (A + c • (1 : Mat n)).PosDef := by
  have hsym : (A + c • (1 : Mat n)).IsSymm := by
    apply hA.add
    show (c • (1 : Mat n))ᵀ = c • (1 : Mat n)
    rw [Matrix.transpose_smul, Matrix.transpose_one]
  refine ⟨(isHermitian_iff_isSymm _).2 hsym, ?_⟩
  intro x hx
  rw [show dotProduct (star x) ((A + c • (1 : Mat n)).mulVec x)
    = dotProduct x ((A + c • (1 : Mat n)).mulVec x) by simp [star_trivial]]
  rw [Matrix.add_mulVec, dotProduct_add]
  rw [show (c • (1 : Mat n)).mulVec x = c • x by
    rw [Matrix.smul_mulVec_assoc, Matrix.one_mulVec]]
  rw [dotProduct_smul]
  have hS : 0 < ∑ k, x k * x k := by
    obtain ⟨i, hi⟩ := Function.ne_iff.1 hx
    refine Finset.sum_pos' (fun k _ => mul_self_nonneg (x k)) ⟨i, Finset.mem_univ i, ?_⟩
    exact mul_self_pos.2 hi
  have habs := abs_qf_le_entrySum_mul A x
  have hq : -(entrySum A * ∑ k, x k * x k) ≤ dotProduct x (A.mulVec x) :=
    neg_le_of_abs_le habs
  have hdot : dotProduct x x = ∑ k, x k * x k := rfl
  rw [smul_eq_mul, hdot]
  nlinarith [hq, hS, hc]

theorem check_iff_posDef_symmLower {n : ℕ} (A : Mat n) :
    check_positive_definite A = true ↔ (symmLower A).PosDef := by
  rw [check_positive_definite, ← symmLower_eq_of_isSymm (symmLower A) (symmLower_isSymm A)]
  exact ldltTest_iff_posDef (symmLower (symmLower A)) (symmLower_isSymm _)

theorem check_iff_posDef_of_isSymm {n : ℕ} (A : Mat n) (hA : A.IsSymm) :
    check_positive_definite A = true ↔ A.PosDef := by
  rw [check_positive_definite, symmLower_eq_of_isSymm A hA]
  exact ldltTest_iff_posDef A hA

theorem check_add_large_smul {n : ℕ} (B : Mat n) (hB : B.IsSymm) (c : ℚ)
    (hc : entrySum B < c) : check_positive_definite (B + c • (1 : Mat n)) = true := by
  have hsym : (B + c • (1 : Mat n)).IsSymm := by
    apply hB.add
    show (c • (1 : Mat n))ᵀ = c • (1 : Mat n)
    rw [Matrix.transpose_smul, Matrix.transpose_one]
  rw [check_iff_posDef_of_isSymm _ hsym]
  exact posDef_add_entrySum_smul B hB c hc

theorem repairLoop_check {n : ℕ} (mineig : Mat n → ℚ) (eps : ℚ) (B : Mat n)
    (hB : B.IsSymm) (heps : 0 < eps)
    (hmin : ∀ C : Mat n, C.IsSymm → check_positive_definite C = false → mineig C ≤ 0) :
    ∀ (fuel k : ℕ) (shift : ℚ), 0 ≤ shift →
      (⌈(entrySum B + 1 - shift) / eps⌉.toNat < fuel) →
      check_positive_definite (repairLoop mineig eps B fuel k shift) = true := by
  intro fuel
  induction fuel with
  | zero =>
    intro k shift _ hlt
    omega
  | succ fuel ih =>
    intro k shift hsh hlt
    rw [repairLoop]
    cases hc : check_positive_definite (B + shift • 1) with
    | true => simp [hc]
    | false =>
      simp only [hc, Bool.false_eq_true, if_false]
      have hsym : (B + shift • (1 : Mat n)).IsSymm := by
        apply hB.add
        show (shift • (1 : Mat n))ᵀ = shift • (1 : Mat n)
        rw [Matrix.transpose_smul, Matrix.transpose_one]
      have hm : mineig (B + shift • 1) ≤ 0 := hmin _ hsym hc
      have hstep : shift + eps ≤ shift + (-(mineig (B + shift • 1)) * (k : ℚ) ^ 2 + eps) := by
        nlinarith [sq_nonneg ((k : ℚ))]
      have hbound : shift ≤ entrySum B := by
        by_contra hgt
        push_neg at hgt
        rw [check_add_large_smul B hB shift hgt] at hc
        exact absurd hc (by decide)
      apply ih
      · linarith
      · have h1 : (1 : ℚ) ≤ entrySum B + 1 - shift := by linarith
        have hold1 : (1 : ℤ) ≤ ⌈(entrySum B + 1 - shift) / eps⌉ :=
          Int.ceil_pos.2 (div_pos (by linarith) heps)
        have hmono : (entrySum B + 1
              - (shift + (-(mineig (B + shift • 1)) * (k : ℚ) ^ 2 + eps))) / eps
            ≤ (entrySum B + 1 - shift) / eps - 1 := by
          rw [show (entrySum B + 1 - shift) / eps - 1
              = (entrySum B + 1 - shift - eps) / eps by field_simp]
          rw [div_le_div_iff_of_pos_right heps]
          linarith
        have hnew : ⌈(entrySum B + 1
              - (shift + (-(mineig (B + shift • 1)) * (k : ℚ) ^ 2 + eps))) / eps⌉
            ≤ ⌈(entrySum B + 1 - shift) / eps⌉ - 1 := by
          calc ⌈(entrySum B + 1
                - (shift + (-(mineig (B + shift • 1)) * (k : ℚ) ^ 2 + eps))) / eps⌉
              ≤ ⌈(entrySum B + 1 - shift) / eps - 1⌉ := Int.ceil_le_ceil hmono
            _ = ⌈(entrySum B + 1 - shift) / eps⌉ - 1 := Int.ceil_sub_one _
        omega

/-- C6: `find_nearest_positive_definite` returns `M` unchanged (with no
warning) when `M` is already positive-definite, otherwise returns a
matrix for which `check_positive_definite` is true, and emits the
warning exactly when a repair occurs (i.e. when the Cholesky check on
`M` fails).  The hypotheses are the interface contracts of the external
numerics: `cov_nearest` returns a symmetric matrix, `np.spacing` of a
norm is positive, and the smallest real eigenvalue of a symmetric
matrix that fails the Cholesky check is nonpositive. -/
theorem claim_C6 {n : ℕ} (covNearest : Mat n → Mat n) (mineig : Mat n → ℚ) (eps : ℚ)
    (M : Mat n) (hcov : ∀ N, (covNearest N).IsSymm) (heps : 0 < eps)
    (hmin : ∀ C : Mat n, C.IsSymm → check_positive_definite C = false → mineig C ≤ 0) :
    (M.PosDef → find_nearest_positive_definite covNearest mineig eps M = (false, M))
      ∧ check_positive_definite
          (find_nearest_positive_definite covNearest mineig eps M).2 = true
      ∧ ((find_nearest_positive_definite covNearest mineig eps M).1 = true
          ↔ check_positive_definite M = false) := by
  have hfuel : ⌈(entrySum (covNearest M) + 1 - 0) / eps⌉.toNat
      < repairFuel (covNearest M) eps := by
    rw [sub_zero, repairFuel]
    omega
  have hrep : check_positive_definite
      (repairLoop mineig eps (covNearest M) (repairFuel (covNearest M) eps) 1 0) = true :=
    repairLoop_check mineig eps (covNearest M) (hcov M) heps hmin _ 1 0 le_rfl hfuel
  refine ⟨?_, ?_, ?_⟩
  · intro hPD
    have hsymm : M.IsSymm := (isHermitian_iff_isSymm M).1 hPD.1
    have hck : check_positive_definite M = true := (check_iff_posDef_of_isSymm M hsymm).2 hPD
    rw [find_nearest_positive_definite, if_pos hck]
  · by_cases hck : check_positive_definite M = true
    · simp only [find_nearest_positive_definite, if_pos hck]
      exact hck
    · simp only [find_nearest_positive_definite, if_neg hck]
      by_cases hA3 : check_positive_definite (covNearest M) = true
      · rw [if_pos hA3]
        exact hA3
      · rw [if_neg hA3]
        exact hrep
  · by_cases hck : check_positive_definite M = true
    · simp only [find_nearest_positive_definite, if_pos hck]
      simp [hck]
    · simp only [find_nearest_positive_definite, if_neg hck]
      by_cases hA3 : check_positive_definite (covNearest M) = true
      · rw [if_pos hA3]
        simp [hck]
      · rw [if_neg hA3]
        simp [hck]

/-- C7 (amended): `check_positive_definite` reads only the lower
triangle (numpy documents this for `np.linalg.cholesky`), so it returns
true iff the symmetric matrix formed from `M`'s lower triangle is
positive-definite; for symmetric `M` this is true iff `M` itself is
symmetric positive-definite.  Factorization failure yields `False`
rather than an exception, and the embedding is pure (no mutation). -/
theorem claim_C7 {n : ℕ} (M : Mat n) :
    (check_positive_definite M = true ↔ (symmLower M).PosDef)
      ∧ (M.IsSymm → (check_positive_definite M = true ↔ M.PosDef)) :=
  ⟨check_iff_posDef_symmLower M, fun h => check_iff_posDef_of_isSymm M h⟩

/-- Witness for C7 at the concrete symmetric matrix `[[2]]`. -/
theorem claim_C7_witness :
    (!![(2 : ℚ)] : Mat 1).IsSymm
      ∧ (check_positive_definite (!![(2 : ℚ)] : Mat 1) = true
          ↔ (!![(2 : ℚ)] : Mat 1).PosDef) := by
  have h : (!![(2 : ℚ)] : Mat 1).IsSymm := by
    ext i j
    fin_cases i
    fin_cases j
    rfl
  exact ⟨h, (claim_C7 !![(2 : ℚ)]).2 h⟩

/-- Counterexample to C7 as stated: the non-symmetric matrix
`[[1, 5], [0, 1]]` passes `check_positive_definite` (its lower triangle
is the identity) but is not symmetric positive-definite. -/
theorem claim_C7_counterexample :
    check_positive_definite (!![1, 5; 0, 1] : Mat 2) = true
      ∧ ¬ (!![1, 5; 0, 1] : Mat 2).PosDef := by
  constructor
  · show ldltTest (symmLower (!![1, 5; 0, 1] : Mat 2)) = true
    simp only [ldltTest, schurComp, symmLower]
    norm_num [Matrix.cons_val_zero, Matrix.cons_val_one, Matrix.head_cons]
  · intro h
    have h1 : (!![1, 5; 0, 1] : Mat 2).IsSymm := (isHermitian_iff_isSymm _).1 h.1
    have h2 := congrFun (congrFun h1 0) 1
    simp only [Matrix.transpose_apply] at h2
    norm_num [Matrix.cons_val_zero, Matrix.cons_val_one, Matrix.head_cons] at h2

/-- Witness for C6 at a concrete input: the 1×1 matrix `[[-1]]` is
repaired (warning emitted, result passes the check). -/
theorem claim_C6_witness :
    check_positive_definite
        (find_nearest_positive_definite (fun _ => (1 : Mat 1)) (fun _ => 0) 1
          !![(-1 : ℚ)]).2 = true
      ∧ ((find_nearest_positive_definite (fun _ => (1 : Mat 1)) (fun _ => 0) 1
          !![(-1 : ℚ)]).1 = true
          ↔ check_positive_definite (!![(-1 : ℚ)] : Mat 1) = false) :=
  ⟨(claim_C6 (fun _ => (1 : Mat 1)) (fun _ => 0) 1 !![(-1 : ℚ)]
      (fun _ => Matrix.isSymm_one) one_pos (fun _ _ _ => le_refl 0)).2.1,
   (claim_C6 (fun _ => (1 : Mat 1)) (fun _ => 0) 1 !![(-1 : ℚ)]
      (fun _ => Matrix.isSymm_one) one_pos (fun _ _ _ => le_refl 0)).2.2⟩

end Kinisi
